import Mathlib

/-!
Verification of the paged record store (`my_db`): a shallow embedding of the
row codec (`src/row.rs`), the pager (`src/pager.rs`), the table
(`src/table.rs`, `src/main.rs`), the save/load routines (`src/save.rs`,
`src/main.rs`, `src/open.rs`) and the insert validation
(`src/statement.rs`, `src/main.rs`), together with proofs of the
specified properties.

Modelling conventions:
* Bytes are `Nat` values; every byte produced by the embedded code is `< 256`.
* Rust `String` values are modelled by their UTF-8 byte sequences
  (`List Nat`).  `String::len` is the byte length, `trim_matches('\0')`
  is trimming of `0` bytes at both ends (a NUL character is the single
  byte `0x00`, and no byte of a multi-byte UTF-8 character is `0x00`,
  so character-level trimming and byte-level trimming agree).
* Files are byte lists; file I/O always succeeds in the model, so the
  `IoError` variants of the Rust error enums are unrepresentable.  The
  tolerated `UnexpectedEof` of `Pager::get_page` is modelled by the
  short `sliceRange` read keeping the zero padding of the buffer.
* The global mutexes (`TABLE`, `PAGER`, `FILE_PATH`) are replaced by
  explicit state passing; lock poisoning (`Poisoned*` errors) is a
  concurrency artefact with no counterpart in the embedding.
-/

set_option maxRecDepth 100000

/-- Id::MAX_SIZE (row.rs line 19): byte width of the id field. -/
def ID_MAX_SIZE : Nat := 8

/-- Username::MAX_SIZE (row.rs line 47): byte width of the username field. -/
def USERNAME_MAX_SIZE : Nat := 32

/-- Email::MAX_SIZE (row.rs line 86): byte width of the email field. -/
def EMAIL_MAX_SIZE : Nat := 255

/-- Row::MAX_SIZE (row.rs line 139): total encoded row size, 8 + 32 + 255 = 295. -/
def ROW_MAX_SIZE : Nat := ID_MAX_SIZE + USERNAME_MAX_SIZE + EMAIL_MAX_SIZE

/-- Page::SIZE (pager.rs line 12) and Table::PAGE_SIZE (main.rs line 303). -/
def PAGE_SIZE : Nat := 4096

/-- Pager::MAX_PAGES (pager.rs line 58) and Table::MAX_PAGES (main.rs line 304). -/
def MAX_PAGES : Nat := 100

/-- Table::ROWS_PER_PAGE (table.rs line 27, main.rs line 305): PAGE_SIZE / ROW_MAX_SIZE = 13. -/
def ROWS_PER_PAGE : Nat := PAGE_SIZE / ROW_MAX_SIZE

/-- Table::MAX_ROWS (table.rs line 28, main.rs line 306): ROWS_PER_PAGE * MAX_PAGES = 1300. -/
def MAX_ROWS : Nat := ROWS_PER_PAGE * MAX_PAGES

/-- Rust slice `l[a..b]` (for `a ≤ b ≤ l.length` this is the exact sub-slice;
the embedding is total and shorter when the list ends early). -/
def sliceRange (l : List Nat) (a b : Nat) : List Nat := (l.drop a).take (b - a)

/-- usize::to_be_bytes (row.rs line 27): the 8 big-endian bytes of an id. -/
def be8 (n : Nat) : List Nat :=
  [n / 2 ^ 56 % 256, n / 2 ^ 48 % 256, n / 2 ^ 40 % 256, n / 2 ^ 32 % 256,
   n / 2 ^ 24 % 256, n / 2 ^ 16 % 256, n / 2 ^ 8 % 256, n % 256]

/-- usize::from_be_bytes (row.rs line 32): big-endian decoding of a byte list. -/
def fromBe8 (l : List Nat) : Nat := l.foldl (fun acc b => acc * 256 + b) 0

/-- Vec::resize_with(width, || 0) (row.rs lines 56, 95): truncate to `width`
bytes, or right-pad with zero bytes up to `width`. -/
def fieldToBytes (width : Nat) (s : List Nat) : List Nat :=
  s.take width ++ List.replicate (width - s.length) 0

/-- State of the byte-level UTF-8 validation automaton: `start` between
characters, `expect lo hi more` inside a multi-byte character whose next byte
must lie in `[lo, hi)` with `more` continuation bytes after it. -/
inductive Utf8State where
  | start
  | expect (lo hi more : Nat)
deriving DecidableEq

/-- One byte of UTF-8 validation, with the lead-byte ranges checked by Rust's
`String::from_utf8` (row.rs lines 66, 105): lead bytes C2–DF take one
continuation byte 80–BF; E0 requires A0–BF (no overlongs), ED requires 80–9F
(no surrogates), E1–EC and EE–EF take 80–BF, each followed by one more
continuation byte; F0 requires 90–BF (no overlongs), F4 requires 80–8F (max
U+10FFFF), F1–F3 take 80–BF, each followed by two more continuation bytes. -/
def utf8Step (s : Utf8State) (b : Nat) : Option Utf8State :=
  match s with
  | .start =>
      if b < 0x80 then some .start
      else if b < 0xC2 then none
      else if b < 0xE0 then some (.expect 0x80 0xC0 0)
      else if b = 0xE0 then some (.expect 0xA0 0xC0 1)
      else if b = 0xED then some (.expect 0x80 0xA0 1)
      else if b < 0xF0 then some (.expect 0x80 0xC0 1)
      else if b = 0xF0 then some (.expect 0x90 0xC0 2)
      else if b = 0xF4 then some (.expect 0x80 0x90 2)
      else if b < 0xF4 then some (.expect 0x80 0xC0 2)
      else none
  | .expect lo hi more =>
      if lo ≤ b ∧ b < hi then
        if more = 0 then some .start else some (.expect 0x80 0xC0 (more - 1))
      else none

/-- Run the UTF-8 automaton over a byte list. -/
def utf8Run (s : Option Utf8State) (l : List Nat) : Option Utf8State :=
  l.foldl (fun os b => os.bind (fun st => utf8Step st b)) s

/-- String::from_utf8 succeeds on `l` (row.rs lines 66, 105): the automaton
consumes all bytes and ends between characters. -/
def validUtf8 (l : List Nat) : Bool := decide (utf8Run (some .start) l = some .start)

/-- str::trim_matches(char::from(0)) at the front: drop leading zero bytes. -/
def trimStartZeros (l : List Nat) : List Nat := l.dropWhile (· == 0)

/-- str::trim_matches(char::from(0)) at the back: drop trailing zero bytes. -/
def trimEndZeros (l : List Nat) : List Nat := (l.reverse.dropWhile (· == 0)).reverse

/-- str::trim_matches(char::from(0)) (row.rs lines 68, 107): drop zero bytes
from both ends.  Note this is not only trailing-byte trimming. -/
def trimZeros (l : List Nat) : List Nat := trimEndZeros (trimStartZeros l)

/-- Field names carried by the errors.  Rust uses the strings "username",
"email", "id"; an enum is used here so that errors stay a plain inductive. -/
inductive FieldName where
  | id
  | username
  | email
deriving DecidableEq

/-- DeserializeError (row.rs lines 5-13).  `fromUtf8Error`'s payload
(std::string::FromUtf8Error) is dropped; `tryFromSliceError`'s size payloads
are kept.  The embedding never reaches `tryFromSliceError` because the slices
taken after the length check always have the exact field width. -/
inductive DeserializeError where
  | invalidBytesSlice (len : Nat)
  | fromUtf8Error
  | tryFromSliceError (field : FieldName) (expectedSize obtainedSize : Nat)
deriving DecidableEq

/-- Row (row.rs lines 123-127): id as a natural number (usize), username and
email as their UTF-8 byte sequences. -/
structure Row where
  id : Nat
  username : List Nat
  email : List Nat
deriving DecidableEq

/-- From<Row> for [u8; Row::MAX_SIZE] (row.rs lines 149-163): id as 8
big-endian bytes at [0,8), username zero-padded to 32 bytes at [8,40), email
zero-padded to 255 bytes at [40,295). -/
def encodeRow (r : Row) : List Nat :=
  be8 r.id ++ fieldToBytes USERNAME_MAX_SIZE r.username ++ fieldToBytes EMAIL_MAX_SIZE r.email

/-- TryFrom<[u8; 32]> for Username and TryFrom<[u8; 255]> for Email
(row.rs lines 62-73, 101-112): UTF-8 validation followed by trimming of zero
bytes at both ends. -/
def decodeField (arr : List Nat) : Except DeserializeError (List Nat) :=
  if validUtf8 arr then .ok (trimZeros arr) else .error .fromUtf8Error

/-- TryFrom<&[u8]> for Row (row.rs lines 164-209): reject slices shorter than
ROW_MAX_SIZE, then decode the three fields from their fixed ranges. -/
def decodeRow (arr : List Nat) : Except DeserializeError Row :=
  if arr.length < ROW_MAX_SIZE then .error (.invalidBytesSlice arr.length)
  else do
    let id := fromBe8 (sliceRange arr 0 8)
    let u ← decodeField (sliceRange arr 8 40)
    let e ← decodeField (sliceRange arr 40 295)
    .ok ⟨id, u, e⟩

instance {E A : Type} [DecidableEq E] [DecidableEq A] : DecidableEq (Except E A) := fun
  | .error e1, .error e2 =>
      if h : e1 = e2 then isTrue (congrArg _ h)
      else isFalse (fun hc => h (Except.error.inj hc))
  | .error _, .ok _ => isFalse Except.noConfusion
  | .ok _, .error _ => isFalse Except.noConfusion
  | .ok a1, .ok a2 =>
      if h : a1 = a2 then isTrue (congrArg _ h)
      else isFalse (fun hc => h (Except.ok.inj hc))


/-- Page number of row `i` (table.rs lines 60, 81; main.rs lines 317, 333):
`row_number / ROWS_PER_PAGE`. -/
def rowPageNum (i : Nat) : Nat := i / ROWS_PER_PAGE

/-- Byte offset of row `i` within its page (table.rs lines 67, 84; main.rs
lines 323, 338): `(row_number % ROWS_PER_PAGE) * ROW_MAX_SIZE`. -/
def rowOffset (i : Nat) : Nat := (i % ROWS_PER_PAGE) * ROW_MAX_SIZE

/-- TableFullError (main.rs line 76) and WriteRowError::TableFull
(table.rs line 17). -/
inductive TableFullError where
  | tableFull
deriving DecidableEq

/-- Table (main.rs lines 298-301): a row count plus MAX_PAGES optional page
slots held directly by the table.  A page is a PAGE_SIZE byte buffer. -/
structure TableM where
  nb_rows : Nat
  pages : List (Option (List Nat))
deriving DecidableEq

/-- Table::default (main.rs lines 348-355): zero rows, all slots absent. -/
def emptyTableM : TableM := ⟨0, List.replicate MAX_PAGES none⟩

/-- slice::copy_from_slice into `page[off .. off + bytes.length]`
(table.rs line 88; main.rs line 342).  Rust panics when the range is out of
bounds; all uses in the source are in bounds (theorem c6_addressing). -/
def writeBytes (page : List Nat) (off : Nat) (bytes : List Nat) : List Nat :=
  page.take off ++ bytes ++ page.drop (off + bytes.length)

/-- Table::get_row (main.rs lines 312-326): `none` when the row number is not
below nb_rows or the page slot is absent, otherwise decode the ROW_MAX_SIZE
slice at the row's offset. -/
def TableM.get_row (t : TableM) (i : Nat) : Option (Except DeserializeError Row) :=
  if i ≥ t.nb_rows then none
  else
    match t.pages.getD (rowPageNum i) none with
    | none => none
    | some page =>
        some (decodeRow (sliceRange page (rowOffset i) (rowOffset i + ROW_MAX_SIZE)))

/-- Table::write_row (main.rs lines 328-346; same logic as table.rs lines
72-92): refuse when nb_rows = MAX_ROWS leaving the table unchanged, otherwise
get-or-insert the page of row nb_rows, copy the encoded row at its offset and
increment nb_rows.  Mirrors the Rust `&mut self -> Result<(), TableFullError>`
signature as a state-and-result pair. -/
def TableM.write_row (t : TableM) (r : Row) : TableM × Except TableFullError Unit :=
  if t.nb_rows = MAX_ROWS then (t, .error .tableFull)
  else
    let pageNum := rowPageNum t.nb_rows
    let page := (t.pages.getD pageNum none).getD (List.replicate PAGE_SIZE 0)
    let page2 := writeBytes page (rowOffset t.nb_rows) (encodeRow r)
    (⟨t.nb_rows + 1, t.pages.set pageNum (some page2)⟩, .ok ())

/-- Sequence of write_row calls; stops at the first error, returning the
state reached so far (the failed call leaves the state unchanged). -/
def TableM.write_rows (t : TableM) : List Row → TableM × Except TableFullError Unit
  | [] => (t, .ok ())
  | r :: rs =>
    match t.write_row r with
    | (t2, .ok ()) => t2.write_rows rs
    | (t2, .error e) => (t2, .error e)

/-- GetPageError (pager.rs lines 38-42).  `IoError` is unrepresentable: file
reads always succeed in the model and the tolerated UnexpectedEof of a short
read is not an error in the source. -/
inductive GetPageError where
  | maxPageReached
deriving DecidableEq

/-- Pager (pager.rs lines 52-56): an optional backing file (modelled by its
byte contents) plus MAX_PAGES optional page slots. -/
structure Pager where
  save_file : Option (List Nat)
  pages : List (Option (List Nat))
deriving DecidableEq

/-- File read of pager.rs lines 147-157: seek to `8 + PAGE_SIZE * page_num`,
read_exact into a zeroed PAGE_SIZE buffer ignoring UnexpectedEof, so the
buffer holds the available file bytes followed by its zero padding. -/
def loadPage (file : List Nat) (pageNum : Nat) : List Nat :=
  let offset := 8 + PAGE_SIZE * pageNum
  fieldToBytes PAGE_SIZE (sliceRange file offset (offset + PAGE_SIZE))

/-- Pager::get_page (pager.rs lines 136-166): capacity error at or above
MAX_PAGES; a resident slot is returned as is; an absent slot is loaded from
the backing file (or zeroed without one) and marked resident. -/
def Pager.get_page (p : Pager) (pageNum : Nat) : Except GetPageError (List Nat × Pager) :=
  if pageNum ≥ MAX_PAGES then .error .maxPageReached
  else
    match p.pages.getD pageNum none with
    | some page => .ok (page, p)
    | none =>
        let page :=
          match p.save_file with
          | some file => loadPage file pageNum
          | none => List.replicate PAGE_SIZE 0
        .ok (page, ⟨p.save_file, p.pages.set pageNum (some page)⟩)

/-- GetRowError (table.rs lines 9-13) without the lock-poisoning variant. -/
inductive GetRowError where
  | getPage (e : GetPageError)
  | deserialize (e : DeserializeError)
deriving DecidableEq

/-- Table (table.rs lines 22-25): a row count over a pager. -/
structure TableP where
  nb_rows : Nat
  pager : Pager
deriving DecidableEq

/-- Table::get_row (table.rs lines 51-70): `none` when the row number is not
below nb_rows (before touching the pager), otherwise fetch the row's page
through the pager (which may make it resident) and decode the ROW_MAX_SIZE
slice at the row's offset. -/
def TableP.get_row (t : TableP) (i : Nat) : Option (Except GetRowError Row) × TableP :=
  if i ≥ t.nb_rows then (none, t)
  else
    match t.pager.get_page (rowPageNum i) with
    | .error e => (some (.error (.getPage e)), t)
    | .ok (page, pager2) =>
        (some ((decodeRow (sliceRange page (rowOffset i) (rowOffset i + ROW_MAX_SIZE))).mapError
            .deserialize),
          ⟨t.nb_rows, pager2⟩)

/-- Page-writing loop shared by Pager::save_to_disk (pager.rs lines 183-190)
and write_table_to_disk (save.rs lines 28-35): concatenate the buffers of the
resident slots in ascending slot order, skipping absent slots. -/
def writePages : List (Option (List Nat)) → List Nat
  | [] => []
  | none :: rest => writePages rest
  | some page :: rest => page ++ writePages rest

/-- write_table_to_disk (save.rs lines 14-38): write the 8-byte big-endian
row count, then every resident page in ascending slot order.  Modelled from
the spec: the iteration source `table.iter()` is not defined in src (Table
has no `iter` method); per the spec the save "writes each resident page's
full buffer, in ascending slot-index order, skipping absent slots entirely",
exactly the loop of Pager::save_to_disk (pager.rs lines 183-190), so the
page slots are supplied to this definition directly.  File writes succeed in
the model, so the `IoError`/`NotAllBytesWritten` failures are not reached
and the produced byte list is returned. -/
def write_table_to_disk (nbRows : Nat) (pages : List (Option (List Nat))) : List Nat :=
  be8 nbRows ++ writePages pages

/-- Indices at which the save loop of write_table_to_disk (main.rs lines
542-554) reads the page array: `for i in 0..table.nb_rows { ... table.pages[i] ... }`. -/
def saveLoopIndices (t : TableM) : List Nat := List.range t.nb_rows

/-- write_table_to_disk (main.rs lines 537-562): write the 8-byte big-endian
nb_rows header, then for each i in 0..nb_rows the page buffer of slot i when
resident.  The loop indexes the MAX_PAGES-slot array at every i < nb_rows;
when some index reaches MAX_PAGES the Rust code panics, modelled by `none`. -/
def write_table_to_disk_main (t : TableM) : Option (List Nat) :=
  if t.nb_rows ≤ MAX_PAGES then some (be8 t.nb_rows ++ writePages (t.pages.take t.nb_rows))
  else none

/-- ReadDataFromFileError (open.rs lines 8-12; main.rs lines 108-112). -/
inductive ReadDataFromFileError where
  | notEnoughData
  | fileIsCorrupted (nbRows : Nat) (pages : List (List Nat))
deriving DecidableEq

/-- Page-chunking loop of read_data_from_file (open.rs lines 34-43; main.rs
lines 519-528): for each offset 8, 8+PAGE_SIZE, ... below the file length,
collect the PAGE_SIZE chunk at that offset; a chunk of any other length
clears the validity flag.  (For a trailing partial chunk the Rust indexing
`bytes[page_range]` panics before the flag is consulted; the model keeps the
intended flag behaviour, and every file built by the save routines is
page-aligned so the branch is not reached there.) -/
def read_pages (bytes : List Nat) : List (List Nat) × Bool :=
  (List.range' 8 ((bytes.length - 8 + (PAGE_SIZE - 1)) / PAGE_SIZE) PAGE_SIZE).foldr
    (fun offset acc =>
      let chunk := sliceRange bytes offset (offset + PAGE_SIZE)
      if chunk.length = PAGE_SIZE then (chunk :: acc.1, acc.2) else (acc.1, false))
    ([], true)

/-- read_data_from_file (open.rs lines 17-50; main.rs lines 502-535): decode
the 8-byte big-endian row count, then chunk the rest into pages.  (Rust
panics at `bytes[..8]` when the file is shorter than 8 bytes; the model
returns the NotEnoughData error that the surrounding code declares for
that case.) -/
def read_data_from_file (bytes : List Nat) :
    Except ReadDataFromFileError (Nat × List (List Nat)) :=
  if bytes.length < 8 then .error .notEnoughData
  else
    let nbRows := fromBe8 (sliceRange bytes 0 8)
    let pv := read_pages bytes
    if pv.2 then .ok (nbRows, pv.1) else .error (.fileIsCorrupted nbRows pv.1)

/-- CreateTableError (main.rs lines 99-105) without the I/O and poisoning
variants, which the model cannot reach. -/
inductive CreateTableError where
  | notEnoughData
  | fileIsCorrupted
deriving DecidableEq

/-- Loop of create_table (main.rs lines 490-492): store the pages read from
the file into the table's slots 0, 1, 2, ... in order. -/
def setPagesFrom : List (Option (List Nat)) → Nat → List (List Nat) → List (Option (List Nat))
  | ps, _, [] => ps
  | ps, i, pg :: rest => setPagesFrom (ps.set i (some pg)) (i + 1) rest

/-- create_table (main.rs lines 466-500): with no file path the table is left
as it is; otherwise read the file and overwrite nb_rows with the header value
and the page slots with the pages read, even when the corruption flag forces
an error return (the Rust code populates the table before returning
FileIsCorrupted). -/
def create_table (file : Option (List Nat)) (t : TableM) : TableM × Option CreateTableError :=
  match file with
  | none => (t, none)
  | some bytes =>
    match read_data_from_file bytes with
    | .error .notEnoughData => (t, some .notEnoughData)
    | .ok (n, pv) => (⟨n, setPagesFrom t.pages 0 pv⟩, none)
    | .error (.fileIsCorrupted n pv) => (⟨n, setPagesFrom t.pages 0 pv⟩, some .fileIsCorrupted)

/-- PrepareStatementError (statement.rs lines 44-48; main.rs lines 56-60,
where it is named StatementError).  The string payload naming the offending
field is modelled by `FieldName`. -/
inductive PrepareStatementError where
  | unrecognizedStatement
  | invalidInsert
  | stringTooLong (field : FieldName) (maxSize : Nat)
deriving DecidableEq

/-- Insert arm of prepare_statement (statement.rs lines 69-97; main.rs lines
569-601), after the regex has captured id, username and email: reject a
username longer than USERNAME_MAX_SIZE bytes, then an email longer than
EMAIL_MAX_SIZE bytes, naming the field and its maximum size; only then is the
Row value built.  `String::len` is the UTF-8 byte length, the length of the
modelled byte list. -/
def prepare_insert (id : Nat) (username email : List Nat) :
    Except PrepareStatementError Row :=
  if username.length > USERNAME_MAX_SIZE then
    .error (.stringTooLong .username USERNAME_MAX_SIZE)
  else if email.length > EMAIL_MAX_SIZE then
    .error (.stringTooLong .email EMAIL_MAX_SIZE)
  else .ok ⟨id, username, email⟩

/-- Page buffer of a successful get_page result (empty list on error). -/
def pageOf : Except GetPageError (List Nat × Pager) → List Nat
  | .ok (page, _) => page
  | .error _ => []

/-- Table states reachable through the program: the empty table, the result
state of any write_row call (successful or failed — a failed call returns the
unchanged table), and re-hydration from a file via create_table.  The
re-hydration arm is restricted to files whose header value is at most
MAX_ROWS — every file saved from a state satisfying the row-count invariant
is of this kind — because create_table adopts the header value without any
validation, so an arbitrary larger header is taken over verbatim. -/
inductive ReachableM : TableM → Prop where
  | empty : ReachableM emptyTableM
  | write (t : TableM) (r : Row) : ReachableM t → ReachableM (t.write_row r).1
  | rehydrate (t : TableM) (file : List Nat) :
      ReachableM t → fromBe8 (sliceRange file 0 8) ≤ MAX_ROWS →
      ReachableM (create_table (some file) t).1

/-- First row of the persistence round-trip test: `(1, "a", "a@x")`. -/
def c3_row1 : Row := ⟨1, [97], [97, 64, 120]⟩

/-- Second row of the persistence round-trip test: `(2, "b", "b@x")`. -/
def c3_row2 : Row := ⟨2, [98], [98, 64, 120]⟩

/-- Page 0 after the first append: the first row encoded at offset 0 of a
zero page. -/
def c3_page1 : List Nat := writeBytes (List.replicate PAGE_SIZE 0) 0 (encodeRow c3_row1)

/-- Page 0 after both appends: the second row encoded at offset 295. -/
def c3_page2 : List Nat := writeBytes c3_page1 295 (encodeRow c3_row2)

/-- The page slots after both appends: page 0 resident, all others absent. -/
def c3_pages : List (Option (List Nat)) := (List.replicate MAX_PAGES none).set 0 (some c3_page2)

/-- The table holding exactly the two test rows, built from the empty table. -/
def c3_table : TableM := (emptyTableM.write_rows [c3_row1, c3_row2]).1

/-- The bytes the save writes for `c3_table`. -/
def c3_file : Option (List Nat) := write_table_to_disk_main c3_table

/-- A fresh table re-hydrated from the saved bytes. -/
def c3_fresh : TableM := (create_table c3_file emptyTableM).1

/-- Row used to fill the table beyond one page worth of slots. -/
def c10_row : Row := ⟨1, [97], [98]⟩

/-- The table after 101 successful appends to the empty table. -/
def c10_table : TableM := (emptyTableM.write_rows (List.replicate 101 c10_row)).1

/-- Table::ROWS_PER_PAGE evaluates to 13. -/
theorem rows_per_page_eq : ROWS_PER_PAGE = 13 := rfl

/-- Table::MAX_ROWS evaluates to 1300. -/
theorem max_rows_eq : MAX_ROWS = 1300 := rfl

theorem fromBe8_be8 (n : Nat) (h : n < 2 ^ 64) : fromBe8 (be8 n) = n := by
  simp only [fromBe8, be8, List.foldl]
  omega

theorem be8_length (n : Nat) : (be8 n).length = 8 := rfl

theorem fieldToBytes_length (width : Nat) (s : List Nat) :
    (fieldToBytes width s).length = width := by
  simp [fieldToBytes]
  omega

theorem fieldToBytes_eq_append (width : Nat) (s : List Nat) (h : s.length ≤ width) :
    fieldToBytes width s = s ++ List.replicate (width - s.length) 0 := by
  simp [fieldToBytes, List.take_of_length_le h]

theorem utf8Run_append (s : Option Utf8State) (u v : List Nat) :
    utf8Run s (u ++ v) = utf8Run (utf8Run s u) v := by
  simp [utf8Run, List.foldl_append]

theorem validUtf8_append (u v : List Nat) (hu : validUtf8 u = true)
    (hv : validUtf8 v = true) : validUtf8 (u ++ v) = true := by
  simp only [validUtf8, decide_eq_true_eq] at *
  rw [utf8Run_append, hu, hv]

theorem validUtf8_replicate_zero (k : Nat) : validUtf8 (List.replicate k 0) = true := by
  simp only [validUtf8, decide_eq_true_eq]
  induction k with
  | zero => rfl
  | succ n ih => rw [List.replicate_succ, utf8Run]; simpa [utf8Step, utf8Run] using ih

theorem dropWhile_zero_replicate (k : Nat) (l : List Nat) :
    (List.replicate k 0 ++ l).dropWhile (· == 0) = l.dropWhile (· == 0) := by
  induction k with
  | zero => rfl
  | succ n ih => simpa [List.replicate_succ, List.dropWhile] using ih

theorem trimEndZeros_append_replicate (x : List Nat) (k : Nat) :
    trimEndZeros (x ++ List.replicate k 0) = trimEndZeros x := by
  simp [trimEndZeros, List.reverse_append, dropWhile_zero_replicate]

theorem trimZeros_append_replicate (u : List Nat) (k : Nat) :
    trimZeros (u ++ List.replicate k 0) = trimZeros u := by
  unfold trimZeros trimStartZeros
  rw [List.dropWhile_append]
  by_cases h : (u.dropWhile (· == 0)).isEmpty
  · simp only [h, if_true]
    rw [List.isEmpty_iff] at h
    rw [h]
    have hz : (List.replicate k (0 : Nat)).dropWhile (· == 0) = [] := by
      simpa using dropWhile_zero_replicate k []
    rw [hz]
  · simp only [h, if_false]
    exact trimEndZeros_append_replicate _ k

theorem decodeField_padded (width : Nat) (u : List Nat) (hv : validUtf8 u = true)
    (hl : u.length ≤ width) :
    decodeField (fieldToBytes width u) = .ok (trimZeros u) := by
  rw [fieldToBytes_eq_append width u hl]
  have hvalid : validUtf8 (u ++ List.replicate (width - u.length) 0) = true :=
    validUtf8_append _ _ hv (validUtf8_replicate_zero _)
  simp [decodeField, hvalid, trimZeros_append_replicate]

theorem encodeRow_length (r : Row) : (encodeRow r).length = ROW_MAX_SIZE := by
  simp [encodeRow, be8_length, fieldToBytes_length, ROW_MAX_SIZE,
    ID_MAX_SIZE, USERNAME_MAX_SIZE, EMAIL_MAX_SIZE]

theorem sliceRange_encodeRow_id (r : Row) : sliceRange (encodeRow r) 0 8 = be8 r.id := by
  have h8 : (be8 r.id).length = 8 := be8_length r.id
  simp only [sliceRange, encodeRow, List.drop_zero, List.append_assoc]
  rw [List.take_left' h8]

theorem sliceRange_encodeRow_username (r : Row) :
    sliceRange (encodeRow r) 8 40 = fieldToBytes USERNAME_MAX_SIZE r.username := by
  simp only [sliceRange, encodeRow, List.append_assoc]
  rw [List.drop_left' (be8_length r.id)]
  exact List.take_left' (by rw [fieldToBytes_length]; decide)

theorem sliceRange_encodeRow_email (r : Row) :
    sliceRange (encodeRow r) 40 295 = fieldToBytes EMAIL_MAX_SIZE r.email := by
  have hlen : ((be8 r.id) ++ fieldToBytes USERNAME_MAX_SIZE r.username).length = 40 := by
    simp [be8_length, fieldToBytes_length, USERNAME_MAX_SIZE]
  simp only [sliceRange, encodeRow]
  rw [List.drop_left' hlen]
  exact List.take_of_length_le (by rw [fieldToBytes_length]; decide)

/-- C1 (counterexample): the row `(0, "\x00a", "a")` is valid — its username
is valid UTF-8 of 2 bytes — yet decoding its encoding yields `(0, "a", "a")`:
decode also strips the *leading* zero byte, so the round trip fails and the
stripping is not limited to the trailing zero padding. -/
theorem c1_roundtrip_cex :
    validUtf8 [0, 97] = true ∧ ([0, 97] : List Nat).length ≤ USERNAME_MAX_SIZE ∧
    decodeRow (encodeRow ⟨0, [0, 97], [97]⟩) = .ok ⟨0, [97], [97]⟩ ∧
    (⟨0, [97], [97]⟩ : Row) ≠ ⟨0, [0, 97], [97]⟩ := by
  refine ⟨by decide, by decide, by decide, by decide⟩

/-- C1 (amended): for every valid row (id below 2^64, username and email
valid UTF-8 of at most 32 resp. 255 bytes) *whose username and email carry no
leading or trailing zero bytes* (`trimZeros` fixes them), decoding the
encoding returns the row unchanged; decode strips zero bytes from both ends
of each field, which on such rows removes exactly the zero padding. -/
theorem c1_roundtrip (r : Row) (hid : r.id < 2 ^ 64)
    (hu : validUtf8 r.username = true) (hul : r.username.length ≤ USERNAME_MAX_SIZE)
    (hut : trimZeros r.username = r.username)
    (he : validUtf8 r.email = true) (hel : r.email.length ≤ EMAIL_MAX_SIZE)
    (het : trimZeros r.email = r.email) :
    decodeRow (encodeRow r) = .ok r := by
  have hlen : (encodeRow r).length = ROW_MAX_SIZE := encodeRow_length r
  rw [decodeRow, if_neg (by omega)]
  have hid8 : fromBe8 (sliceRange (encodeRow r) 0 8) = r.id := by
    rw [sliceRange_encodeRow_id, fromBe8_be8 r.id hid]
  have husl : sliceRange (encodeRow r) 8 40 = fieldToBytes USERNAME_MAX_SIZE r.username :=
    sliceRange_encodeRow_username r
  have hesl : sliceRange (encodeRow r) 40 295 = fieldToBytes EMAIL_MAX_SIZE r.email :=
    sliceRange_encodeRow_email r
  simp only [bind, Except.bind, hid8, husl, hesl,
    decodeField_padded USERNAME_MAX_SIZE r.username hu hul,
    decodeField_padded EMAIL_MAX_SIZE r.email he hel, hut, het]

/-- C1 witness: the amended round trip applied to the concrete valid row
`(1, "a", "a@x")`. -/
theorem c1_roundtrip_witness :
    decodeRow (encodeRow ⟨1, [97], [97, 64, 120]⟩) = .ok ⟨1, [97], [97, 64, 120]⟩ :=
  c1_roundtrip ⟨1, [97], [97, 64, 120]⟩ (by decide) (by decide) (by decide)
    (by decide) (by decide) (by decide) (by decide)

theorem write_row_full (t : TableM) (r : Row) (h : t.nb_rows = MAX_ROWS) :
    t.write_row r = (t, .error .tableFull) := by
  rw [TableM.write_row, if_pos h]

theorem write_row_not_full (t : TableM) (r : Row) (h : ¬ t.nb_rows = MAX_ROWS) :
    (t.write_row r).2 = .ok () ∧ (t.write_row r).1.nb_rows = t.nb_rows + 1 := by
  rw [TableM.write_row, if_neg h]
  exact ⟨rfl, rfl⟩

theorem write_rows_ok (rows : List Row) : ∀ t : TableM,
    t.nb_rows + rows.length ≤ MAX_ROWS →
    (t.write_rows rows).2 = .ok () ∧
    (t.write_rows rows).1.nb_rows = t.nb_rows + rows.length := by
  induction rows with
  | nil => intro t h; exact ⟨rfl, by simp [TableM.write_rows]⟩
  | cons r rs ih =>
    intro t h
    simp only [List.length_cons] at h
    have hne : ¬ t.nb_rows = MAX_ROWS := by omega
    obtain ⟨hok, hnb⟩ := write_row_not_full t r hne
    rw [TableM.write_rows]
    rcases hw : t.write_row r with ⟨t2, res⟩
    rw [hw] at hok hnb
    simp only at hok hnb
    cases res with
    | error e => exact absurd hok (by simp)
    | ok u =>
      cases u
      obtain ⟨ha, hb⟩ := ih t2 (by omega)
      refine ⟨ha, ?_⟩
      rw [hb, hnb]
      simp only [List.length_cons]
      omega

/-- C4: from the empty table, any prefix of n ≤ MAX_ROWS of a MAX_ROWS-long
row list is written successfully with nb_rows = n afterwards; the
(MAX_ROWS + 1)-th write fails with TableFull and leaves the table — in
particular nb_rows — unchanged. -/
theorem c4_capacity (rows : List Row) (r : Row) (n : Nat)
    (hlen : rows.length = MAX_ROWS) (hn : n ≤ MAX_ROWS) :
    ((emptyTableM.write_rows (rows.take n)).2 = .ok () ∧
     (emptyTableM.write_rows (rows.take n)).1.nb_rows = n) ∧
    ((emptyTableM.write_rows rows).1.write_row r).2 = .error .tableFull ∧
    ((emptyTableM.write_rows rows).1.write_row r).1 = (emptyTableM.write_rows rows).1 := by
  have hlentk : (rows.take n).length = n := by
    rw [List.length_take, hlen]
    omega
  have hempty : emptyTableM.nb_rows = 0 := rfl
  constructor
  · obtain ⟨ha, hb⟩ := write_rows_ok (rows.take n) emptyTableM (by rw [hempty, hlentk]; omega)
    exact ⟨ha, by rw [hb, hempty, hlentk]; omega⟩
  · obtain ⟨-, hb⟩ := write_rows_ok rows emptyTableM (by rw [hempty, hlen]; omega)
    have hfull : (emptyTableM.write_rows rows).1.nb_rows = MAX_ROWS := by
      rw [hb, hempty, hlen]
      omega
    rw [write_row_full _ r hfull]
    exact ⟨rfl, rfl⟩

/-- C4 witness: the capacity theorem at 1300 copies of the row `(1, "a", "a")`. -/
theorem c4_capacity_witness :
    ((emptyTableM.write_rows ((List.replicate MAX_ROWS (⟨1, [97], [97]⟩ : Row)).take MAX_ROWS)).2
        = .ok () ∧
     (emptyTableM.write_rows
        ((List.replicate MAX_ROWS (⟨1, [97], [97]⟩ : Row)).take MAX_ROWS)).1.nb_rows = MAX_ROWS) ∧
    ((emptyTableM.write_rows (List.replicate MAX_ROWS (⟨1, [97], [97]⟩ : Row))).1.write_row
        ⟨1, [97], [97]⟩).2 = .error .tableFull ∧
    ((emptyTableM.write_rows (List.replicate MAX_ROWS (⟨1, [97], [97]⟩ : Row))).1.write_row
        ⟨1, [97], [97]⟩).1
      = (emptyTableM.write_rows (List.replicate MAX_ROWS (⟨1, [97], [97]⟩ : Row))).1 :=
  c4_capacity (List.replicate MAX_ROWS ⟨1, [97], [97]⟩) ⟨1, [97], [97]⟩ MAX_ROWS
    (List.length_replicate MAX_ROWS _) (le_refl MAX_ROWS)

/-- C7: a read at any row number at or above the row count — in particular at
row_count itself — returns `none` (not an error) and leaves the state
untouched, for both table embeddings: the main.rs table is read through
`&self` without any state change, and the table.rs table returns before
touching the pager, handing back the unchanged table-and-pager state. -/
theorem c7_out_of_range (tm : TableM) (tp : TableP) (i j : Nat)
    (hi : tm.nb_rows ≤ i) (hj : tp.nb_rows ≤ j) :
    tm.get_row i = none ∧ tp.get_row j = (none, tp) := by
  constructor
  · rw [TableM.get_row, if_pos hi]
  · rw [TableP.get_row, if_pos hj]

/-- C7 witness: reading row 0 of empty tables. -/
theorem c7_out_of_range_witness :
    emptyTableM.get_row 0 = none ∧
    TableP.get_row ⟨0, ⟨none, List.replicate MAX_PAGES none⟩⟩ 0 =
      (none, ⟨0, ⟨none, List.replicate MAX_PAGES none⟩⟩) :=
  c7_out_of_range emptyTableM ⟨0, ⟨none, List.replicate MAX_PAGES none⟩⟩ 0 0
    (Nat.le_refl 0) (Nat.le_refl 0)

/-- C6: the page number and byte offset used by get_row and write_row are
exactly i / ROWS_PER_PAGE and (i % ROWS_PER_PAGE) * ROW_MAX_SIZE; every row
slice lies inside the PAGE_SIZE page, and two distinct row numbers on the
same page occupy disjoint byte ranges. -/
theorem c6_addressing (rc i j : Nat) (hi : i < rc) (hj : j < rc)
    (hpage : rowPageNum i = rowPageNum j) (hne : i ≠ j) :
    rowPageNum i = i / ROWS_PER_PAGE ∧
    rowOffset i = i % ROWS_PER_PAGE * ROW_MAX_SIZE ∧
    rowOffset i + ROW_MAX_SIZE ≤ PAGE_SIZE ∧
    (rowOffset i + ROW_MAX_SIZE ≤ rowOffset j ∨ rowOffset j + ROW_MAX_SIZE ≤ rowOffset i) := by
  refine ⟨rfl, rfl, ?_, ?_⟩
  · simp only [rowOffset, ROWS_PER_PAGE, ROW_MAX_SIZE, PAGE_SIZE, ID_MAX_SIZE,
      USERNAME_MAX_SIZE, EMAIL_MAX_SIZE]
    omega
  · simp only [rowPageNum, rowOffset, ROWS_PER_PAGE, ROW_MAX_SIZE, PAGE_SIZE, ID_MAX_SIZE,
      USERNAME_MAX_SIZE, EMAIL_MAX_SIZE] at hpage ⊢
    omega

/-- C6 witness: rows 0 and 1 of a two-row table share page 0 with disjoint
byte ranges. -/
theorem c6_addressing_witness :
    rowPageNum 0 = 0 / ROWS_PER_PAGE ∧
    rowOffset 0 = 0 % ROWS_PER_PAGE * ROW_MAX_SIZE ∧
    rowOffset 0 + ROW_MAX_SIZE ≤ PAGE_SIZE ∧
    (rowOffset 0 + ROW_MAX_SIZE ≤ rowOffset 1 ∨ rowOffset 1 + ROW_MAX_SIZE ≤ rowOffset 0) :=
  c6_addressing 2 0 1 (by decide) (by decide) (by decide) (by decide)

/-- C8: preparing an insert whose username exceeds 32 bytes fails with the
string-too-long error naming the username field and its maximum size (an
oversized email is likewise rejected naming the email field and 255), and no
row is built in those cases; when both fields fit, the row is built with the
fields byte-for-byte unchanged — nothing is ever truncated. -/
theorem c8_oversized (id : Nat) (username email : List Nat) :
    (USERNAME_MAX_SIZE < username.length →
      prepare_insert id username email = .error (.stringTooLong .username USERNAME_MAX_SIZE)) ∧
    (username.length ≤ USERNAME_MAX_SIZE → EMAIL_MAX_SIZE < email.length →
      prepare_insert id username email = .error (.stringTooLong .email EMAIL_MAX_SIZE)) ∧
    (username.length ≤ USERNAME_MAX_SIZE → email.length ≤ EMAIL_MAX_SIZE →
      prepare_insert id username email = .ok ⟨id, username, email⟩) := by
  refine ⟨fun h1 => ?_, fun h1 h2 => ?_, fun h1 h2 => ?_⟩
  · rw [prepare_insert, if_pos (by omega)]
  · rw [prepare_insert, if_neg (by omega), if_pos (by omega)]
  · rw [prepare_insert, if_neg (by omega), if_neg (by omega)]

/-- C8 witness: a 33-byte username is rejected naming the username field, a
256-byte email is rejected naming the email field, and fitting fields pass
through unchanged. -/
theorem c8_oversized_witness :
    prepare_insert 1 (List.replicate 33 97) [97]
      = .error (.stringTooLong .username USERNAME_MAX_SIZE) ∧
    prepare_insert 2 [98] (List.replicate 256 98)
      = .error (.stringTooLong .email EMAIL_MAX_SIZE) ∧
    prepare_insert 3 [99] [100] = .ok ⟨3, [99], [100]⟩ :=
  ⟨(c8_oversized 1 (List.replicate 33 97) [97]).1 (by decide),
   (c8_oversized 2 [98] (List.replicate 256 98)).2.1 (by decide) (by decide),
   (c8_oversized 3 [99] [100]).2.2 (by decide) (by decide)⟩

/-- C10: the save loop of write_table_to_disk in main.rs visits every index
below nb_rows on the MAX_PAGES-slot page array.  After 101 successful appends
— a reachable state — the loop visits index 100, which is out of bounds for
the 100-slot array: the claimed bounds safety fails (the Rust indexing
panics; the modelled save evaluates to the panic marker `none`). -/
theorem c10_save_oob :
    (emptyTableM.write_rows (List.replicate 101 c10_row)).2 = .ok () ∧
    c10_table.nb_rows = 101 ∧
    100 ∈ saveLoopIndices c10_table ∧
    ¬ (100 < MAX_PAGES) ∧
    write_table_to_disk_main c10_table = none := by
  obtain ⟨h1, h2⟩ := write_rows_ok (List.replicate 101 c10_row) emptyTableM (by decide)
  have hnb : c10_table.nb_rows = 101 := by
    rw [c10_table, h2]
    rfl
  refine ⟨h1, hnb, ?_, by decide, ?_⟩
  · rw [saveLoopIndices, hnb]
    decide
  · rw [write_table_to_disk_main, hnb, if_neg (by decide)]

theorem writePages_eq_flatten (pages : List (Option (List Nat))) :
    writePages pages = (pages.filterMap id).flatten := by
  induction pages with
  | nil => rfl
  | cons hd rest ih =>
    cases hd with
    | none => simpa [writePages] using ih
    | some pg => simp [writePages, ih]

theorem resident_length (pages : List (Option (List Nat)))
    (hwf : ∀ pg : List Nat, some pg ∈ pages → pg.length = PAGE_SIZE) :
    ∀ pg ∈ pages.filterMap id, pg.length = PAGE_SIZE := by
  intro pg hpg
  rw [List.mem_filterMap] at hpg
  obtain ⟨a, ha, hid⟩ := hpg
  cases a with
  | none => exact Option.noConfusion hid
  | some q =>
    cases hid
    exact hwf pg ha

theorem flatten_length_const (res : List (List Nat))
    (h : ∀ pg ∈ res, pg.length = PAGE_SIZE) :
    res.flatten.length = PAGE_SIZE * res.length := by
  induction res with
  | nil => rfl
  | cons pg rest ih =>
    rw [List.flatten_cons, List.length_append, h pg (List.mem_cons_self pg rest),
      ih (fun q hq => h q (List.mem_cons_of_mem _ hq)), List.length_cons, Nat.mul_succ]
    omega

/-- C2: a save through write_table_to_disk produces bytes whose first 8 bytes
are the big-endian row count (decoding back to it), followed by exactly the
concatenation of the resident pages' full buffers in ascending slot order:
the total length is 8 plus PAGE_SIZE per resident page, so absent slots
contribute no bytes at all. -/
theorem c2_save_layout (nbRows : Nat) (pages : List (Option (List Nat)))
    (hn : nbRows < 2 ^ 64)
    (hwf : ∀ pg : List Nat, some pg ∈ pages → pg.length = PAGE_SIZE) :
    sliceRange (write_table_to_disk nbRows pages) 0 8 = be8 nbRows ∧
    fromBe8 (sliceRange (write_table_to_disk nbRows pages) 0 8) = nbRows ∧
    sliceRange (write_table_to_disk nbRows pages) 8 (write_table_to_disk nbRows pages).length
      = (pages.filterMap id).flatten ∧
    (write_table_to_disk nbRows pages).length
      = 8 + PAGE_SIZE * (pages.filterMap id).length := by
  have hfl : ((pages.filterMap id).flatten).length = PAGE_SIZE * (pages.filterMap id).length :=
    flatten_length_const _ (resident_length pages hwf)
  have hhead : sliceRange (write_table_to_disk nbRows pages) 0 8 = be8 nbRows := by
    simp only [sliceRange, write_table_to_disk, List.drop_zero]
    exact List.take_left' (be8_length nbRows)
  have hlen : (write_table_to_disk nbRows pages).length
      = 8 + PAGE_SIZE * (pages.filterMap id).length := by
    simp only [write_table_to_disk, List.length_append, be8_length nbRows,
      writePages_eq_flatten, hfl]
  refine ⟨hhead, by rw [hhead]; exact fromBe8_be8 nbRows hn, ?_, hlen⟩
  simp only [sliceRange, write_table_to_disk, writePages_eq_flatten]
  rw [List.drop_left' (be8_length nbRows)]
  apply List.take_of_length_le
  rw [hfl]
  rw [write_table_to_disk, writePages_eq_flatten] at hlen
  rw [hlen]
  omega

/-- C2 witness: the layout theorem for a pager holding one resident zero page
in slot 0 and an absent slot 1, with row count 2. -/
theorem c2_save_layout_witness :
    sliceRange (write_table_to_disk 2 [some (List.replicate PAGE_SIZE 0), none]) 0 8 = be8 2 ∧
    fromBe8 (sliceRange (write_table_to_disk 2 [some (List.replicate PAGE_SIZE 0), none]) 0 8)
      = 2 ∧
    sliceRange (write_table_to_disk 2 [some (List.replicate PAGE_SIZE 0), none]) 8
        (write_table_to_disk 2 [some (List.replicate PAGE_SIZE 0), none]).length
      = ([some (List.replicate PAGE_SIZE 0), none].filterMap id).flatten ∧
    (write_table_to_disk 2 [some (List.replicate PAGE_SIZE 0), none]).length
      = 8 + PAGE_SIZE * ([some (List.replicate PAGE_SIZE 0), none].filterMap id).length :=
  c2_save_layout 2 [some (List.replicate PAGE_SIZE 0), none] (by decide)
    (by
      intro pg h
      simp only [List.mem_cons, List.not_mem_nil, or_false, Option.some.injEq,
        reduceCtorEq] at h
      rw [h]
      exact List.length_replicate PAGE_SIZE 0)

theorem fieldToBytes_getD_zero (width : Nat) (s : List Nat) (j : Nat)
    (hj : j < width) (hs : s.length ≤ j) :
    (fieldToBytes width s).getD j 1 = 0 := by
  rw [fieldToBytes]
  have htl : (s.take width).length = s.length := by
    rw [List.length_take]
    omega
  rw [List.getD_eq_getElem?_getD, List.getElem?_append_right (by omega), htl,
    List.getElem?_replicate]
  rw [if_pos (by omega)]
  rfl

/-- C5: get_page fails with the capacity error exactly when the page number
reaches MAX_PAGES; below MAX_PAGES a never-loaded slot backed by a file is
served without error, every buffer position beyond the bytes available in the
file keeps its zero padding, and a page lying entirely beyond the end of the
file reads back as all zeros. -/
theorem c5_get_page (p : Pager) (n j : Nat) (file : List Nat)
    (habs : p.pages.getD n none = none) (hfile : p.save_file = some file) :
    (MAX_PAGES ≤ n ↔ p.get_page n = .error .maxPageReached) ∧
    (n < MAX_PAGES → (p.get_page n).isOk = true) ∧
    (n < MAX_PAGES → j < PAGE_SIZE → file.length ≤ 8 + PAGE_SIZE * n + j →
      (pageOf (p.get_page n)).getD j 1 = 0) ∧
    (n < MAX_PAGES → file.length ≤ 8 + PAGE_SIZE * n →
      pageOf (p.get_page n) = List.replicate PAGE_SIZE 0) := by
  by_cases hge : MAX_PAGES ≤ n
  · have herr : p.get_page n = .error .maxPageReached := by
      rw [Pager.get_page, if_pos (by omega)]
    exact ⟨iff_of_true hge herr, fun hlt => absurd hge (by omega),
      fun hlt => absurd hge (by omega), fun hlt => absurd hge (by omega)⟩
  · have hred : p.get_page n
        = .ok (loadPage file n, ⟨some file, p.pages.set n (some (loadPage file n))⟩) := by
      rw [Pager.get_page, if_neg (by omega), habs, hfile]
    have hnoterr : ¬ p.get_page n = .error .maxPageReached := by
      rw [hred]
      exact fun h => Except.noConfusion h
    have hpage : pageOf (p.get_page n) = loadPage file n := by rw [hred, pageOf]
    have hslen : (sliceRange file (8 + PAGE_SIZE * n) (8 + PAGE_SIZE * n + PAGE_SIZE)).length
        ≤ file.length - (8 + PAGE_SIZE * n) := by
      rw [sliceRange, List.length_take, List.length_drop]
      omega
    refine ⟨iff_of_false hge hnoterr, fun _ => by rw [hred]; rfl, fun _ hj hfl => ?_, 
      fun _ hfl => ?_⟩
    · rw [hpage, loadPage]
      exact fieldToBytes_getD_zero PAGE_SIZE _ j hj (by omega)
    · rw [hpage, loadPage]
      have hnil : sliceRange file (8 + PAGE_SIZE * n) (8 + PAGE_SIZE * n + PAGE_SIZE) = [] := by
        rw [sliceRange, List.drop_eq_nil_of_le hfl]
        exact List.take_nil
      rw [hnil]
      simp [fieldToBytes]

/-- C5 witness: page 0 of a fresh pager over an empty backing file is served
without error and reads back as all zeros. -/
theorem c5_get_page_witness :
    (Pager.get_page ⟨some [], List.replicate MAX_PAGES none⟩ 0).isOk = true ∧
    (pageOf (Pager.get_page ⟨some [], List.replicate MAX_PAGES none⟩ 0)).getD 0 1 = 0 ∧
    pageOf (Pager.get_page ⟨some [], List.replicate MAX_PAGES none⟩ 0)
      = List.replicate PAGE_SIZE 0 := by
  have h := c5_get_page ⟨some [], List.replicate MAX_PAGES none⟩ 0 0 [] (by decide) rfl
  exact ⟨h.2.1 (by decide), h.2.2.1 (by decide) (by decide) (by decide),
    h.2.2.2 (by decide) (by decide)⟩

theorem read_data_header_ok (bytes : List Nat) (n : Nat) (pv : List (List Nat))
    (h : read_data_from_file bytes = .ok (n, pv)) :
    n = fromBe8 (sliceRange bytes 0 8) := by
  simp only [read_data_from_file] at h
  split at h
  · exact absurd h (by simp)
  · split at h
    · simp only [Except.ok.injEq, Prod.mk.injEq] at h
      exact h.1.symm
    · exact absurd h (by simp)

theorem read_data_header_corrupt (bytes : List Nat) (n : Nat) (pv : List (List Nat))
    (h : read_data_from_file bytes = .error (.fileIsCorrupted n pv)) :
    n = fromBe8 (sliceRange bytes 0 8) := by
  simp only [read_data_from_file] at h
  split at h
  · exact absurd h (by simp)
  · split at h
    · exact absurd h (by simp)
    · simp only [Except.error.injEq, ReadDataFromFileError.fileIsCorrupted.injEq] at h
      exact h.1.symm

/-- C9 (counterexample): create_table adopts the row count found in the file
header without validating it against MAX_ROWS: re-hydrating from the 8-byte
file holding the big-endian value MAX_ROWS + 1 = 1301 succeeds without error
and leaves the table with nb_rows = 1301, violating the claimed invariant. -/
theorem c9_invariant_cex :
    create_table (some (be8 (MAX_ROWS + 1))) emptyTableM
      = (⟨MAX_ROWS + 1, List.replicate MAX_PAGES none⟩, none) ∧
    MAX_ROWS < (create_table (some (be8 (MAX_ROWS + 1))) emptyTableM).1.nb_rows := by
  exact ⟨by decide, by decide⟩

/-- C9 (amended): nb_rows ≤ MAX_ROWS holds in every state reachable by
creation, by any sequence of successful or failed write_row calls, and by
re-hydration from files whose header value is itself at most MAX_ROWS (which
covers every file saved from such a state); re-hydration from a file with a
larger header value breaks the bound, since create_table performs no
validation. -/
theorem c9_invariant (t : TableM) (h : ReachableM t) : t.nb_rows ≤ MAX_ROWS := by
  induction h with
  | empty => exact Nat.zero_le MAX_ROWS
  | write t r hre ih =>
    by_cases hf : t.nb_rows = MAX_ROWS
    · rw [write_row_full t r hf]
      exact ih
    · obtain ⟨-, hnb⟩ := write_row_not_full t r hf
      rw [hnb]
      omega
  | rehydrate t file hre hhead ih =>
    cases hr : read_data_from_file file with
    | ok pair =>
      obtain ⟨n, pv⟩ := pair
      have hn := read_data_header_ok file n pv hr
      simp only [create_table, hr]
      omega
    | error e =>
      cases e with
      | notEnoughData => simpa only [create_table, hr] using ih
      | fileIsCorrupted n pv =>
        have hn := read_data_header_corrupt file n pv hr
        simp only [create_table, hr]
        omega

/-- C9 witness: the invariant at the freshly created empty table. -/
theorem c9_invariant_witness : emptyTableM.nb_rows ≤ MAX_ROWS :=
  c9_invariant emptyTableM ReachableM.empty

theorem writeBytes_length (page bytes : List Nat) (off : Nat)
    (h : off + bytes.length ≤ page.length) :
    (writeBytes page off bytes).length = page.length := by
  simp only [writeBytes, List.length_append, List.length_take, List.length_drop]
  omega

theorem sliceRange_writeBytes_self (page bytes : List Nat) (off : Nat)
    (h : off + bytes.length ≤ page.length) :
    sliceRange (writeBytes page off bytes) off (off + bytes.length) = bytes := by
  rw [sliceRange, writeBytes, List.append_assoc,
    List.drop_left' (by rw [List.length_take]; omega), Nat.add_sub_cancel_left]
  exact List.take_left' rfl

theorem sliceRange_writeBytes_prefix (page bytes : List Nat) (off n : Nat)
    (hn : n ≤ off) (hoff : off ≤ page.length) :
    sliceRange (writeBytes page off bytes) 0 n = sliceRange page 0 n := by
  simp only [sliceRange, writeBytes, List.drop_zero, Nat.sub_zero]
  rw [List.take_append_of_le_length (by rw [List.length_append, List.length_take]; omega),
    List.take_append_of_le_length (by rw [List.length_take]; omega),
    List.take_take, Nat.min_eq_left hn]

/-- C3: appending the rows (1, "a", "a@x") and (2, "b", "b@x") to an empty
table, saving (successfully: the save produces bytes), and re-hydrating a
fresh table from those bytes (successfully: no error) reproduces exactly the
two original rows at row numbers 0 and 1. -/
theorem c3_persistence :
    c3_file.isSome = true ∧
    (create_table c3_file emptyTableM).2 = none ∧
    c3_fresh.get_row 0 = some (.ok c3_row1) ∧
    c3_fresh.get_row 1 = some (.ok c3_row2) := by
  have hp1len : c3_page1.length = PAGE_SIZE := by
    rw [c3_page1,
      writeBytes_length _ _ _ (by rw [List.length_replicate, encodeRow_length]; decide)]
    exact List.length_replicate PAGE_SIZE 0
  have hp2len : c3_page2.length = PAGE_SIZE := by
    rw [c3_page2, writeBytes_length _ _ _ (by rw [hp1len, encodeRow_length]; decide)]
    exact hp1len
  have hF0 : c3_file = some (be8 2 ++ (c3_page2 ++ [])) := rfl
  have hF : c3_file = some (be8 2 ++ c3_page2) := by rw [hF0, List.append_nil]
  have hFlen : (be8 2 ++ c3_page2).length = 8 + PAGE_SIZE := by
    rw [List.length_append, be8_length, hp2len]
  have hslice0 : sliceRange (be8 2 ++ c3_page2) 0 8 = be8 2 := by
    simp only [sliceRange, List.drop_zero]
    exact List.take_left' (be8_length 2)
  have hoffs : List.range' 8
      (((be8 2 ++ c3_page2).length - 8 + (PAGE_SIZE - 1)) / PAGE_SIZE) PAGE_SIZE = [8] := by
    rw [hFlen]
    decide
  have hchunk : sliceRange (be8 2 ++ c3_page2) 8 (8 + PAGE_SIZE) = c3_page2 := by
    rw [sliceRange, List.drop_left' (be8_length 2), Nat.add_sub_cancel_left]
    exact List.take_of_length_le (by rw [hp2len])
  have hrp : read_pages (be8 2 ++ c3_page2) = ([c3_page2], true) := by
    rw [read_pages, hoffs, List.foldr_cons, List.foldr_nil]
    simp only [hchunk, hp2len]
    rfl
  have hread : read_data_from_file (be8 2 ++ c3_page2) = .ok (2, [c3_page2]) := by
    rw [read_data_from_file, if_neg (by rw [hFlen]; decide)]
    simp only [hrp, hslice0, fromBe8_be8 2 (by decide)]
    rfl
  have hct : create_table c3_file emptyTableM = (⟨2, c3_pages⟩, none) := by
    rw [hF]
    simp only [create_table, hread]
    rfl
  have hfresh : c3_fresh = ⟨2, c3_pages⟩ := by
    rw [c3_fresh, hct]
  have hget : c3_pages.getD 0 none = some c3_page2 := rfl
  have hslice1 : sliceRange c3_page2 0 295 = encodeRow c3_row1 := by
    have hpre : sliceRange c3_page2 0 295 = sliceRange c3_page1 0 295 := by
      rw [c3_page2]
      exact sliceRange_writeBytes_prefix c3_page1 (encodeRow c3_row2) 295 295
        (le_refl 295) (by rw [hp1len]; decide)
    rw [hpre, c3_page1,
      show (295 : Nat) = 0 + (encodeRow c3_row1).length by rw [encodeRow_length]; decide]
    exact sliceRange_writeBytes_self _ _ 0
      (by rw [List.length_replicate, encodeRow_length]; decide)
  have hslice2 : sliceRange c3_page2 295 590 = encodeRow c3_row2 := by
    rw [c3_page2,
      show (590 : Nat) = 295 + (encodeRow c3_row2).length by rw [encodeRow_length]; decide]
    exact sliceRange_writeBytes_self _ _ 295 (by rw [hp1len, encodeRow_length]; decide)
  have hrow0 : c3_fresh.get_row 0
      = some (decodeRow (sliceRange c3_page2 (rowOffset 0) (rowOffset 0 + ROW_MAX_SIZE))) := by
    rw [hfresh, TableM.get_row, if_neg (by decide)]
    rw [show rowPageNum 0 = 0 from rfl, hget]
  have hrow1 : c3_fresh.get_row 1
      = some (decodeRow (sliceRange c3_page2 (rowOffset 1) (rowOffset 1 + ROW_MAX_SIZE))) := by
    rw [hfresh, TableM.get_row, if_neg (by decide)]
    rw [show rowPageNum 1 = 0 from rfl, hget]
  refine ⟨by rw [hF]; rfl, by rw [hct], ?_, ?_⟩
  · rw [hrow0, show rowOffset 0 + ROW_MAX_SIZE = 295 by decide,
      show rowOffset 0 = 0 by decide, hslice1]
    have hdec : decodeRow (encodeRow c3_row1) = .ok c3_row1 := by decide
    rw [hdec]
  · rw [hrow1, show rowOffset 1 + ROW_MAX_SIZE = 590 by decide,
      show rowOffset 1 = 295 by decide, hslice2]
    have hdec : decodeRow (encodeRow c3_row2) = .ok c3_row2 := by decide
    rw [hdec]
